import Mathlib

/-!
Shallow embedding of the contextual-bandit orchestration engine
(`clai/server/orchestration/patterns/rltk_bandit_orchestrator/rltk_bandit_orchestrator.py`)
and of `clai/server/command_runner/clean_input.py`.

Modelling conventions:
* Python strings are modelled by `String` (or `List Char` for the quote-splitting
  helper, where character-level reasoning is needed).
* Confidence scores are modelled by `ℚ` (the code stores plain Python floats and
  never performs arithmetic on them other than placing them in a vector, so exact
  rationals are a faithful model of the values that flow through).
* The Python dict `_action_order` is modelled by an insertion-ordered association
  list `List (String × Nat)`; Python dicts preserve insertion order, which matters
  because `__choose_action__` iterates `.items()` and breaks at the first match.
* A Python exception escaping a function is modelled by `Option`/`Except` results:
  `none` / `.error` means the call raised.
* The bandit policy (`self._agent`) is an external collaborator; its `choose` and
  `observe` capabilities are modelled as function parameters (oracles).
-/

namespace Clai

/-- A candidate action proposed by a skill: the suggested command rewrite, the
owning skill identity (`agent_owner`) and its intrinsic confidence score. -/
structure Action where
  suggested_command : String
  agent_owner : String
  confidence : ℚ
  deriving DecidableEq, Repr

/-- The command `State` message: only the fields `choose_action` reads
(`command_id` and `command`). -/
structure StateMsg where
  command_id : String
  command : String
  deriving DecidableEq, Repr

/-- The action-order registry `_action_order`: an insertion-ordered mapping
from skill identity to slot index. -/
abbrev Reg := List (String × Nat)

/-- Models `self._noop_action` (set to the string NOOP in `__init__`). -/
def noopAction : String := "NOOP"

/-- Models `self._noop_confidence` (set to 0.1 in `__init__`). -/
def noopConfidence : ℚ := 1 / 10

/-- Models `agent_name in self._action_order` (dict key membership). -/
def hasAgent (reg : Reg) (a : String) : Bool :=
  reg.any (fun p => p.1 == a)

/-- Models `max(self._action_order.values())`. The registry always contains the no-op
entry when this is evaluated, so the Python `max` never sees an empty sequence;
we default to 0 on the (unreachable) empty registry. -/
def maxSlot (reg : Reg) : Nat :=
  (reg.map Prod.snd).foldl Nat.max 0

/-- Models `__add_to_action_order__`: if the agent already has a slot do nothing,
otherwise append it with slot `max(existing) + 1`. -/
def addToActionOrder (reg : Reg) (a : String) : Reg :=
  if hasAgent reg a then reg else reg ++ [(a, maxSlot reg + 1)]

/-- Models `self._action_order[agent]` as a total function: `none` models a `KeyError`. -/
def lookupSlot (reg : Reg) (a : String) : Option Nat :=
  (reg.find? (fun p => p.1 == a)).map Prod.snd

/-- The registry's `ensure` operation as the spec names it: the code realises it
as `__add_to_action_order__` followed by a dict lookup (lines 195-197). Returns
the slot together with the updated registry. -/
def ensure (reg : Reg) (a : String) : Option Nat × Reg :=
  let r := addToActionOrder reg a
  (lookupSlot r a, r)

/-- The engine state the orchestrator mutates: the cached policy dimensionality
`_n_actions` (read from `agent.num_actions` in `load_state`), the registry
`_action_order`, and the `_warm_start` flag. The policy's internal parameters
are abstracted away (external collaborator). -/
structure BanditState where
  nActions : Nat
  actionOrder : Reg
  warmStart : Bool
  deriving DecidableEq, Repr

/-- Modelled from the spec: `__calculate_confidence__` is inherited from the base
`Orchestrator` class, whose source is not part of the repository excerpt. Per the
spec, confidence "is an arbitrary real-valued quality signal attached to each
candidate by its producing skill; the builder does not compute it, only places
it", so it simply reads the candidate's intrinsic confidence. -/
def calculateConfidence (a : Action) : ℚ :=
  a.confidence

/-- The per-candidate loop of `__build_context__` (lines 193-199): ensure the
candidate's owner has a slot, then write its confidence at that slot. A write at
an out-of-range position is a Python `IndexError`: the loop aborts with `none`,
keeping the registry mutations already performed (including the failing
candidate's registration, which happens before the write). -/
def buildCtxLoop : List Action → Reg → List ℚ → Reg × Option (List ℚ)
  | [], reg, vec => (reg, some vec)
  | a :: rest, reg, vec =>
    let reg' := addToActionOrder reg a.agent_owner
    match lookupSlot reg' a.agent_owner with
    | none => (reg', none)
    | some pos =>
      if pos < vec.length then
        buildCtxLoop rest reg' (vec.set pos (calculateConfidence a))
      else (reg', none)

/-- Models `__build_context__`: allocate a zero vector of length `_n_actions`, write the
no-op baseline confidence at the no-op slot, then run the candidate loop.
`none` models an escaping exception (`KeyError` on a missing no-op entry, or an
`IndexError` on an out-of-range write). -/
def buildContext (st : BanditState) (cands : List Action) :
    BanditState × Option (List ℚ) :=
  let vec0 := List.replicate st.nActions (0 : ℚ)
  match lookupSlot st.actionOrder noopAction with
  | none => (st, none)
  | some noopPos =>
    if noopPos < vec0.length then
      let res := buildCtxLoop cands st.actionOrder (vec0.set noopPos noopConfidence)
      ({ st with actionOrder := res.1 }, res.2)
    else (st, none)

/-- The reverse lookup inside `__choose_action__` (lines 215-219): the first
registry entry whose slot equals the chosen arm index, in insertion order. -/
def armToAgent (reg : Reg) (idx : Nat) : Option String :=
  (reg.find? (fun p => p.2 == idx)).map Prod.fst

/-- Models `__choose_action__`: map the chosen arm back to an agent name; if it is the
no-op agent or unmapped, or if no candidate is owned by that agent, yield
`none`; otherwise yield the first matching candidate. -/
def chooseActionInner (reg : Reg) (idx : Nat) (cands : List Action) : Option Action :=
  match armToAgent reg idx with
  | none => none
  | some ag =>
    if ag == noopAction then none
    else cands.find? (fun a => a.agent_owner == ag)

/-- Models `Action(suggested_command=command.command)`: the fallback action built at
line 157; fields other than `suggested_command` keep their defaults. -/
def fallbackAction (cmd : String) : Action :=
  { suggested_command := cmd, agent_owner := "", confidence := 0 }

/-- Decidable equality on `Except`, needed to evaluate concrete outcomes. -/
instance exceptDecEq {ε α : Type} [DecidableEq ε] [DecidableEq α] :
    DecidableEq (Except ε α) := fun x y =>
  match x, y with
  | .ok a, .ok b =>
    if h : a = b then .isTrue (by rw [h]) else .isFalse (by intro hc; cases hc; exact h rfl)
  | .error a, .error b =>
    if h : a = b then .isTrue (by rw [h]) else .isFalse (by intro hc; cases hc; exact h rfl)
  | .ok _, .error _ => .isFalse (by intro hc; cases hc)
  | .error _, .ok _ => .isFalse (by intro hc; cases hc)

/-- Everything a call to `choose_action` produces: the engine state afterwards,
whether the policy's `choose` capability was invoked, and the outcome
(`.error ()` models an exception escaping the call, `.ok r` a normal return of
`r`, where `none` is Python `None`). -/
structure ChooseResult where
  state : BanditState
  policyCalled : Bool
  result : Except Unit (Option Action)
  deriving DecidableEq, Repr

/-- Models `choose_action` (lines 138-159). `pol` is the policy's `choose` capability
(`self._agent.choose` with `num_arms=1`, returning the single chosen arm);
`cands` is the `candidate_actions` argument (`none` models Python `None`). -/
def choose_action (pol : String → List ℚ → Nat) (st : BanditState)
    (command : StateMsg) (cands : Option (List Action)) : ChooseResult :=
  match cands with
  | none => ⟨st, false, .ok none⟩
  | some [] => ⟨st, false, .ok none⟩
  | some cs =>
    match buildContext st cs with
    | (st', none) => ⟨st', false, .error ()⟩
    | (st', some ctx) =>
      let arm := pol command.command_id ctx
      match chooseActionInner st'.actionOrder arm cs with
      | none => ⟨st', true, .ok (some (fallbackAction command.command))⟩
      | some a => ⟨st', true, .ok (some a)⟩

/-- A terminal replay memory record; only the originating command is read by
`record_transition`. -/
structure TerminalReplayMemory where
  command : StateMsg
  deriving DecidableEq, Repr

/-- A completed transition: a pre/post pair of replay records. -/
structure TerminalReplayMemoryComplete where
  pre_replay : TerminalReplayMemory
  post_replay : TerminalReplayMemory
  deriving DecidableEq, Repr

/-- Models `__compute_pre_transition_reward__` (lines 231-234): always 0. -/
def computePreTransitionReward (_prev _post : TerminalReplayMemory) : Int := 0

/-- Models `__compute_post_transition_reward__` (lines 237-240): always 0. -/
def computePostTransitionReward (_prev _post : TerminalReplayMemory) : Int := 0

/-- The warning message logged when an observe call raises (line 182). -/
def observeWarn (e : String) : String :=
  "Error in record_transition of bandit orchestrator. Error: " ++ e

/-- Models `record_transition` (lines 161-182). `observe` is the policy's `observe`
capability, which may raise (`.error`). The reward computations happen outside
the try block but are total (constant 0). Both `observe` calls sit inside a
single try block whose handler catches every exception and logs it. The result
is `.error e` when an exception escapes `record_transition` itself, and
`.ok logs` (with the warnings logged) on a normal return. -/
def record_transition (observe : String → Int → Except String Unit)
    (prev : TerminalReplayMemoryComplete) (cur : TerminalReplayMemory) :
    Except String (List String) :=
  match observe prev.pre_replay.command.command_id
      (computePreTransitionReward prev.pre_replay prev.post_replay) with
  | .error e => .ok [observeWarn e]
  | .ok _ =>
    match observe prev.post_replay.command.command_id
        (computePostTransitionReward prev.post_replay cur) with
    | .error e => .ok [observeWarn e]
    | .ok _ => .ok []

/-- The persisted state read back by `load_state` via `self.load()`: each field
may be absent (`state.get(..., None)` / defaulted). The policy parameters are
abstracted away. -/
structure Persisted where
  action_order : Option Reg
  warm_start : Option Bool
  deriving DecidableEq, Repr

/-- Models `load_state` (lines 55-69): take the registry from the persisted state or
default it to the singleton no-op registry, cache the policy dimensionality
`agent.num_actions` (a parameter here, the policy being external), and read the
warm-start flag with default `True`. -/
def loadState (numActionsOfAgent : Nat) (p : Persisted) : BanditState :=
  { nActions := numActionsOfAgent
  , actionOrder := p.action_order.getD [(noopAction, 0)]
  , warmStart := p.warm_start.getD true }

/-- The observable outcome of constructing the orchestrator: the resulting
engine state, whether the policy's warm-start capability was invoked, and
whether the state was persisted. -/
structure StartupResult where
  state : BanditState
  warmStartInvoked : Bool
  saved : Bool
  deriving DecidableEq, Repr

/-- Models `warm_start_orchestrator` (lines 71-136), success path: the function picks
the `max-orchestrator` profile, generates synthetic data, feeds it to the
policy's warm-start capability, sets `_warm_start` to `False` and saves. The
synthetic-data generator and the policy call are modelled abstractly (their
contents do not affect the engine state beyond the flag); what matters here is
the control flow: the body never reads `_warm_start`, so the policy's
warm-start capability is invoked unconditionally. -/
def warm_start_orchestrator (st : BanditState) : StartupResult :=
  { state := { st with warmStart := false }
  , warmStartInvoked := true
  , saved := true }

/-- Models `RLTKBandit.__init__` (lines 32-44), success path: `load_state` followed by
an unconditional call to `warm_start_orchestrator`. -/
def rltkBanditStart (numActionsOfAgent : Nat) (p : Persisted) : StartupResult :=
  warm_start_orchestrator (loadState numActionsOfAgent p)

/-- Python `s.split(sep)` specialised to the single-character separator used by
`extract_quoted_agent_name` (a double quote), over `List Char`. Like Python's
`split` with an explicit separator it keeps empty groups and always returns at
least one group. -/
def splitOnQuote : List Char → List (List Char)
  | [] => [[]]
  | c :: rest =>
    if c = '"' then [] :: splitOnQuote rest
    else
      match splitOnQuote rest with
      | [] => [[c]]
      | g :: gs => (c :: g) :: gs

/-- The Python slice `[1::2]`: the elements at odd indices. -/
def oddIdxElems : List (List Char) → List (List Char)
  | [] => []
  | [_] => []
  | _ :: y :: rest => y :: oddIdxElems rest

/-- Python `plugin_to_select.startswith(a double quote)` over `List Char`. -/
def startsWithQuote (s : List Char) : Bool :=
  match s with
  | c :: _ => c == '"'
  | [] => false

/-- Models `extract_quoted_agent_name` (`clean_input.py`, lines 8-13), over `List Char`:
if the input starts with a double quote and the odd-index groups of the split
are non-empty, return the first such group; otherwise return the input. -/
def extract_quoted_agent_name (s : List Char) : List Char :=
  if startsWithQuote s then
    match oddIdxElems (splitOnQuote s) with
    | [] => s
    | n :: _ => n
  else s

/-- A straight-line sequence of `ensure` calls (spec section 8's "sequence of
ensure calls"): returns the slot each call yielded, in call order, together with
the final registry. -/
def ensureSeq : Reg → List String → List (Option Nat) × Reg
  | reg, [] => ([], reg)
  | reg, a :: rest =>
    let e := ensure reg a
    let r := ensureSeq e.2 rest
    (e.1 :: r.1, r.2)

/-- The arithmetic sequence `s, s+1, ..., s+n-1`, used to state which slots a
run of fresh registrations receives. -/
def slotSeq : Nat → Nat → List Nat
  | _, 0 => []
  | s, n + 1 => s :: slotSeq (s + 1) n

/-- The three ways the reverse lookup of `__choose_action__` can fail to produce
a candidate: the chosen arm maps to the no-op identity, or to no registered
identity, or to a registered identity owning no candidate in the input list. -/
def armLookupNoMatch (reg : Reg) (idx : Nat) (cands : List Action) : Bool :=
  match armToAgent reg idx with
  | none => true
  | some ag => ag == noopAction || (cands.find? (fun a => a.agent_owner == ag)).isNone

/-- The registry reached by running only the registrations of
`__build_context__`'s loop (each candidate's owner ensured, in order). -/
def regAfterEnsures (reg : Reg) (cands : List Action) : Reg :=
  cands.foldl (fun r a => addToActionOrder r a.agent_owner) reg

/-! ### Registry lemmas -/

theorem lookupSlot_isSome_iff_hasAgent (reg : Reg) (a : String) :
    (lookupSlot reg a).isSome = hasAgent reg a := by
  induction reg with
  | nil => rfl
  | cons p r ih =>
    by_cases h : p.1 = a
    · simp [lookupSlot, hasAgent, List.find?_cons_of_pos, h]
    · have hb : (p.1 == a) = false := beq_eq_false_iff_ne.mpr h
      simp only [hasAgent, List.any_cons, hb, Bool.false_or]
      rw [lookupSlot, List.find?_cons_of_neg _ (by simp [hb])]
      exact ih

theorem addToActionOrder_of_hasAgent {reg : Reg} {a : String}
    (h : hasAgent reg a = true) : addToActionOrder reg a = reg := by
  simp [addToActionOrder, h]

theorem lookupSlot_append_left {reg : Reg} {a : String} (l : Reg)
    (h : hasAgent reg a = true) : lookupSlot (reg ++ l) a = lookupSlot reg a := by
  induction reg with
  | nil => simp [hasAgent] at h
  | cons p r ih =>
    by_cases hp : p.1 = a
    · simp only [lookupSlot, List.cons_append]
      rw [List.find?_cons_of_pos _ (by simp [hp]), List.find?_cons_of_pos _ (by simp [hp])]
    · have hb : (p.1 == a) = false := beq_eq_false_iff_ne.mpr hp
      have hr : hasAgent r a = true := by
        simpa [hasAgent, hb] using h
      simp only [lookupSlot, List.cons_append]
      rw [List.find?_cons_of_neg _ (by simp [hb]), List.find?_cons_of_neg _ (by simp [hb])]
      exact ih hr

theorem lookupSlot_append_fresh {reg : Reg} {a : String} (s : Nat)
    (h : hasAgent reg a = false) : lookupSlot (reg ++ [(a, s)]) a = some s := by
  induction reg with
  | nil => simp [lookupSlot]
  | cons p r ih =>
    have hb : (p.1 == a) = false := by
      by_contra hc
      have : (p.1 == a) = true := by
        cases hpb : (p.1 == a) with
        | true => rfl
        | false => exact absurd hpb hc
      simp [hasAgent, this] at h
    have hr : hasAgent r a = false := by
      simpa [hasAgent, hb] using h
    simp only [lookupSlot, List.cons_append]
    rw [List.find?_cons_of_neg _ (by simp [hb])]
    exact ih hr

theorem hasAgent_addToActionOrder_self (reg : Reg) (a : String) :
    hasAgent (addToActionOrder reg a) a = true := by
  by_cases h : hasAgent reg a = true
  · rw [addToActionOrder_of_hasAgent h]; exact h
  · have hf : hasAgent reg a = false := by
      cases hh : hasAgent reg a with
      | true => exact absurd hh h
      | false => rfl
    have he : addToActionOrder reg a = reg ++ [(a, maxSlot reg + 1)] := by
      simp [addToActionOrder, hf]
    rw [he]
    simp [hasAgent, List.any_append]

theorem hasAgent_addToActionOrder_mono {reg : Reg} {x : String} (b : String)
    (h : hasAgent reg x = true) : hasAgent (addToActionOrder reg b) x = true := by
  unfold addToActionOrder
  split
  · exact h
  · simp [hasAgent, List.any_append] at h ⊢
    exact Or.inl h

theorem lookupSlot_addToActionOrder_stable {reg : Reg} {x : String} (b : String)
    (h : hasAgent reg x = true) :
    lookupSlot (addToActionOrder reg b) x = lookupSlot reg x := by
  unfold addToActionOrder
  split
  · rfl
  · exact lookupSlot_append_left _ h

theorem ensure_of_hasAgent {reg : Reg} {a : String} (h : hasAgent reg a = true) :
    ensure reg a = (lookupSlot reg a, reg) := by
  simp [ensure, addToActionOrder_of_hasAgent h]

theorem hasAgent_ensure_snd (reg : Reg) (a : String) :
    hasAgent (ensure reg a).2 a = true :=
  hasAgent_addToActionOrder_self reg a

/-- Two consecutive `ensure` calls with the same identity: the second returns
the same slot and the same registry as the first. -/
theorem ensure_ensure (reg : Reg) (a : String) :
    ensure (ensure reg a).2 a = ((ensure reg a).1, (ensure reg a).2) := by
  have h : hasAgent (addToActionOrder reg a) a = true := hasAgent_addToActionOrder_self reg a
  simp [ensure, addToActionOrder_of_hasAgent h]

/-! ### Claim C7 -/

/-- C7: the registry's `ensure` operation is idempotent: for every identity that
already has a slot, calling `ensure` returns that slot and leaves the registry
unchanged; and two consecutive `ensure` calls with the same identity yield the
same slot (and registry) both times. -/
theorem C7_ensure_idempotent :
    (∀ (reg : Reg) (a : String) (s : Nat),
        lookupSlot reg a = some s → ensure reg a = (some s, reg)) ∧
    (∀ (reg : Reg) (a : String),
        ensure (ensure reg a).2 a = ((ensure reg a).1, (ensure reg a).2)) := by
  constructor
  · intro reg a s h
    have hh : hasAgent reg a = true := by
      rw [← lookupSlot_isSome_iff_hasAgent, h]; rfl
    rw [ensure_of_hasAgent hh, h]
  · intro reg a
    exact ensure_ensure reg a

/-- Witness for C7 at a concrete registry already containing the identity A. -/
theorem C7_ensure_idempotent_witness :
    ensure [(noopAction, 0), ("A", 1)] "A" = (some 1, [(noopAction, 0), ("A", 1)]) :=
  C7_ensure_idempotent.1 [(noopAction, 0), ("A", 1)] "A" 1 rfl

/-! ### Claim C5 -/

/-- C5: `choose_action` with an empty or missing candidate list returns no
suggestion, does not invoke the policy's choose capability, and leaves the
engine state (registry, flag) unchanged. -/
theorem C5_empty_candidates_no_suggestion (pol : String → List ℚ → Nat)
    (st : BanditState) (command : StateMsg) (cands : Option (List Action))
    (h : cands = none ∨ cands = some []) :
    choose_action pol st command cands =
      { state := st, policyCalled := false, result := .ok none } := by
  rcases h with h | h <;> subst h <;> rfl

/-- Witness for C5 with a missing (`None`) candidate list. -/
theorem C5_empty_candidates_no_suggestion_witness :
    choose_action (fun _ _ => 0)
        { nActions := 1, actionOrder := [(noopAction, 0)], warmStart := true }
        { command_id := "t0", command := "pwd" } none =
      { state := { nActions := 1, actionOrder := [(noopAction, 0)], warmStart := true },
        policyCalled := false, result := .ok none } :=
  C5_empty_candidates_no_suggestion _ _ _ _ (Or.inl rfl)

/-! ### Claim C2 -/

/-- C2 (code-bug evidence): when the persisted state carries a warm-start flag of
false, loading reproduces the false flag, and yet constructing the orchestrator
still invokes the warm-start path: `__init__` calls `warm_start_orchestrator`
unconditionally and that method never reads `_warm_start`, so the policy is
warm-started on every process start. -/
theorem C2_warm_start_runs_despite_false_flag :
    (loadState 3 { action_order := some [(noopAction, 0)], warm_start := some false }).warmStart
        = false ∧
    (rltkBanditStart 3
        { action_order := some [(noopAction, 0)], warm_start := some false }).warmStartInvoked
        = true :=
  ⟨rfl, rfl⟩

/-! ### Claim C4 -/

/-- C4 counterexample: an engine state whose registry is exactly NOOP at slot 0
but whose cached policy dimensionality is 2 runs the same scenario (candidates
from skills A and B with confidences 0.6 and 0.9) into an out-of-range write:
B is assigned slot 2, the vector has length 2, and the construction raises
instead of returning the vector 0.1, 0.6, 0.9. -/
theorem C4_scenario_counterexample :
    (buildContext { nActions := 2, actionOrder := [(noopAction, 0)], warmStart := false }
        [{ suggested_command := "cmdA", agent_owner := "A", confidence := 3/5 },
         { suggested_command := "cmdB", agent_owner := "B", confidence := 9/10 }]).2
      ≠ some [1/10, 3/5, 9/10] := by
  intro h
  have hnone : (buildContext
      { nActions := 2, actionOrder := [(noopAction, 0)], warmStart := false }
      [{ suggested_command := "cmdA", agent_owner := "A", confidence := 3/5 },
       { suggested_command := "cmdB", agent_owner := "B", confidence := 9/10 }]).2 = none := rfl
  rw [hnone] at h
  exact Option.noConfusion h

/-- C4 amended: with the cached policy dimensionality `num_actions` equal to 3,
the scenario holds exactly as stated: starting from the registry containing only
NOOP at slot 0, building the context for candidates from skills A and B with
confidences 0.6 and 0.9 yields the 3-length vector 0.1, 0.6, 0.9, and the
registry afterwards is NOOP at 0, A at 1, B at 2. -/
theorem C4_amended_scenario :
    buildContext { nActions := 3, actionOrder := [(noopAction, 0)], warmStart := false }
        [{ suggested_command := "cmdA", agent_owner := "A", confidence := 3/5 },
         { suggested_command := "cmdB", agent_owner := "B", confidence := 9/10 }] =
      ({ nActions := 3, actionOrder := [(noopAction, 0), ("A", 1), ("B", 2)],
         warmStart := false },
       some [1/10, 3/5, 9/10]) :=
  rfl

/-! ### Claim C1 -/

/-- C1 counterexample: with a non-empty candidate list, when the policy picks arm
0, which maps to the no-op identity, `choose_action` does not return no
suggestion (None): it returns a (fallback) action. -/
theorem C1_noop_arm_counterexample :
    armToAgent ((choose_action (fun _ _ => 0)
        { nActions := 2, actionOrder := [(noopAction, 0)], warmStart := false }
        { command_id := "t1", command := "ls -la" }
        (some [{ suggested_command := "ls -l", agent_owner := "A", confidence := 1/2 }])
      ).state.actionOrder) 0 = some noopAction ∧
    (choose_action (fun _ _ => 0)
        { nActions := 2, actionOrder := [(noopAction, 0)], warmStart := false }
        { command_id := "t1", command := "ls -la" }
        (some [{ suggested_command := "ls -l", agent_owner := "A", confidence := 1/2 }])
      ).result ≠ .ok none := by
  refine ⟨rfl, ?_⟩
  intro h
  injection h with h2
  exact Option.noConfusion h2

/-- The reverse lookup yields no candidate exactly when one of the three no-match
cases holds (chosen arm is the no-op identity, unmapped, or its identity owns no
candidate). -/
theorem chooseActionInner_eq_none_iff (reg : Reg) (idx : Nat) (cands : List Action) :
    chooseActionInner reg idx cands = none ↔ armLookupNoMatch reg idx cands = true := by
  unfold chooseActionInner armLookupNoMatch
  cases harm : armToAgent reg idx with
  | none => simp
  | some ag =>
    cases hag : (ag == noopAction) with
    | true => simp [hag]
    | false =>
      simp [hag, Option.isNone_iff_eq_none]

/-- C1 amended: for `choose_action` with a non-empty candidate list (and a
context build that completes), when the arm chosen by the policy maps to the
no-op identity, or to no registered identity, or to an identity owning no
candidate in the input list, `choose_action` does not return no suggestion: it
returns the fallback action whose suggested command is the input command's
original command string. -/
theorem C1_amended_no_match_gives_fallback (pol : String → List ℚ → Nat)
    (st : BanditState) (command : StateMsg) (cs : List Action) (ctx : List ℚ)
    (hne : cs ≠ [])
    (hctx : (buildContext st cs).2 = some ctx)
    (hmatch : armLookupNoMatch (buildContext st cs).1.actionOrder
        (pol command.command_id ctx) cs = true) :
    (choose_action pol st command (some cs)).result =
      .ok (some (fallbackAction command.command)) := by
  cases cs with
  | nil => exact absurd rfl hne
  | cons c rest =>
    have hb : buildContext st (c :: rest) = ((buildContext st (c :: rest)).1, some ctx) := by
      conv_lhs => rw [show buildContext st (c :: rest)
        = ((buildContext st (c :: rest)).1, (buildContext st (c :: rest)).2) from rfl]
      rw [hctx]
    have hinner : chooseActionInner (buildContext st (c :: rest)).1.actionOrder
        (pol command.command_id ctx) (c :: rest) = none :=
      (chooseActionInner_eq_none_iff _ _ _).mpr hmatch
    unfold choose_action
    dsimp only
    rw [hb]
    dsimp only
    rw [hinner]

/-- Witness for C1's amended statement: one candidate from skill A, the policy
chooses arm 0, which maps to the no-op identity; the call returns the fallback
action proposing the original command. -/
theorem C1_amended_no_match_gives_fallback_witness :
    (choose_action (fun _ _ => 0)
        { nActions := 2, actionOrder := [(noopAction, 0)], warmStart := false }
        { command_id := "t2", command := "git status" }
        (some [{ suggested_command := "git st", agent_owner := "A", confidence := 1/2 }])
      ).result = .ok (some (fallbackAction "git status")) :=
  C1_amended_no_match_gives_fallback (fun _ _ => 0)
    { nActions := 2, actionOrder := [(noopAction, 0)], warmStart := false }
    { command_id := "t2", command := "git status" }
    [{ suggested_command := "git st", agent_owner := "A", confidence := 1/2 }]
    [1/10, 1/2] (by intro h; exact List.noConfusion h) rfl rfl

/-! ### Claim C9 -/

/-- C9: for `choose_action` with a non-empty candidate list, a normal return is
never no suggestion (None); and whenever the internal candidate lookup yields no
match, the returned action is the fallback whose suggested command equals the
input command's original command string. -/
theorem C9_nonempty_returns_some (pol : String → List ℚ → Nat)
    (st : BanditState) (command : StateMsg) (cs : List Action) (ctx : List ℚ)
    (r : Option Action)
    (hne : cs ≠ [])
    (hctx : (buildContext st cs).2 = some ctx)
    (hr : (choose_action pol st command (some cs)).result = .ok r) :
    ∃ a, r = some a ∧
      (chooseActionInner (buildContext st cs).1.actionOrder
          (pol command.command_id ctx) cs = none →
        a = fallbackAction command.command) := by
  cases cs with
  | nil => exact absurd rfl hne
  | cons c rest =>
    have hb : buildContext st (c :: rest) = ((buildContext st (c :: rest)).1, some ctx) := by
      conv_lhs => rw [show buildContext st (c :: rest)
        = ((buildContext st (c :: rest)).1, (buildContext st (c :: rest)).2) from rfl]
      rw [hctx]
    unfold choose_action at hr
    dsimp only at hr
    rw [hb] at hr
    dsimp only at hr
    cases hinner : chooseActionInner (buildContext st (c :: rest)).1.actionOrder
        (pol command.command_id ctx) (c :: rest) with
    | none =>
      simp only [hinner] at hr
      injection hr with hr2
      exact ⟨fallbackAction command.command, hr2.symm, fun _ => rfl⟩
    | some a =>
      simp only [hinner] at hr
      injection hr with hr2
      exact ⟨a, hr2.symm, fun hc => Option.noConfusion hc⟩

/-- Witness for C9: candidate from skill A, policy chooses arm 0 (the no-op
identity); the normal return is the fallback action, not None. -/
theorem C9_nonempty_returns_some_witness :
    ∃ a, (some (fallbackAction "make test") : Option Action) = some a ∧
      (chooseActionInner [(noopAction, 0), ("A", 1)] 0
          [{ suggested_command := "make check", agent_owner := "A", confidence := 1/2 }] = none →
        a = fallbackAction "make test") :=
  C9_nonempty_returns_some (fun _ _ => 0)
    { nActions := 2, actionOrder := [(noopAction, 0)], warmStart := false }
    { command_id := "t3", command := "make test" }
    [{ suggested_command := "make check", agent_owner := "A", confidence := 1/2 }]
    [1/10, 1/2] (some (fallbackAction "make test"))
    (by intro h; exact List.noConfusion h) rfl rfl

/-! ### Claim C3 -/

theorem hasAgent_regAfterEnsures (cs : List Action) :
    ∀ (reg : Reg) (x : String), hasAgent reg x = true →
      hasAgent (regAfterEnsures reg cs) x = true := by
  induction cs with
  | nil => intro reg x h; exact h
  | cons a rest ih =>
    intro reg x h
    exact ih (addToActionOrder reg a.agent_owner) x (hasAgent_addToActionOrder_mono _ h)

theorem lookupSlot_regAfterEnsures (cs : List Action) :
    ∀ (reg : Reg) (x : String), hasAgent reg x = true →
      lookupSlot (regAfterEnsures reg cs) x = lookupSlot reg x := by
  induction cs with
  | nil => intro reg x h; rfl
  | cons a rest ih =>
    intro reg x h
    have hstep : lookupSlot (addToActionOrder reg a.agent_owner) x = lookupSlot reg x :=
      lookupSlot_addToActionOrder_stable a.agent_owner h
    have hmono : hasAgent (addToActionOrder reg a.agent_owner) x = true :=
      hasAgent_addToActionOrder_mono _ h
    calc lookupSlot (regAfterEnsures reg (a :: rest)) x
        = lookupSlot (regAfterEnsures (addToActionOrder reg a.agent_owner) rest) x := rfl
      _ = lookupSlot (addToActionOrder reg a.agent_owner) x := ih _ x hmono
      _ = lookupSlot reg x := hstep

/-- Specification of the per-candidate loop on success: the vector length is
preserved, the final registry is the fold of the registrations, and every
candidate's owner ends with a slot strictly below the vector length (each write
was within bounds). -/
theorem buildCtxLoop_some_spec (cs : List Action) :
    ∀ (reg : Reg) (vec : List ℚ) (regF : Reg) (v : List ℚ),
      buildCtxLoop cs reg vec = (regF, some v) →
      v.length = vec.length ∧ regF = regAfterEnsures reg cs ∧
        ∀ a ∈ cs, ∃ p, lookupSlot regF a.agent_owner = some p ∧ p < vec.length := by
  induction cs with
  | nil =>
    intro reg vec regF v h
    unfold buildCtxLoop at h
    injection h with h1 h2
    injection h2 with h2
    subst h1; subst h2
    exact ⟨rfl, rfl, by intro a ha; exact absurd ha (List.not_mem_nil a)⟩
  | cons a rest ih =>
    intro reg vec regF v h
    unfold buildCtxLoop at h
    dsimp only at h
    cases hl : lookupSlot (addToActionOrder reg a.agent_owner) a.agent_owner with
    | none => rw [hl] at h; simp at h
    | some pos =>
      rw [hl] at h
      dsimp only at h
      by_cases hlt : pos < vec.length
      · rw [if_pos hlt] at h
        obtain ⟨hlen, hreg, hall⟩ := ih _ _ _ _ h
        have hsetlen : (vec.set pos (calculateConfidence a)).length = vec.length :=
          List.length_set vec pos _
        refine ⟨hlen.trans hsetlen, hreg, ?_⟩
        intro b hb
        rcases List.mem_cons.mp hb with hb | hb
        · subst hb
          have hsa : hasAgent (addToActionOrder reg b.agent_owner) b.agent_owner = true :=
            hasAgent_addToActionOrder_self reg b.agent_owner
          refine ⟨pos, ?_, hlt⟩
          rw [hreg]
          calc lookupSlot (regAfterEnsures reg (b :: rest)) b.agent_owner
              = lookupSlot (regAfterEnsures (addToActionOrder reg b.agent_owner) rest)
                  b.agent_owner := rfl
            _ = lookupSlot (addToActionOrder reg b.agent_owner) b.agent_owner :=
                lookupSlot_regAfterEnsures rest _ _ hsa
            _ = some pos := hl
        · obtain ⟨p, hp, hplt⟩ := hall b hb
          exact ⟨p, hp, lt_of_lt_of_le hplt (le_of_eq hsetlen)⟩
      · rw [if_neg hlt] at h
        simp at h

/-- C3 counterexample: a registry holding only the no-op (one slot, matching the
cached dimensionality 1); a candidate whose owning identity A is registered for
the first time during the call receives slot 1, the write of its confidence at
slot 1 is out of the 1-length vector's range, and the construction raises
instead of returning a vector — while the registry keeps the new registration. -/
theorem C3_oob_write_counterexample :
    ([((noopAction : String), (0 : Nat))] : Reg).length = 1 ∧
    (buildContext { nActions := 1, actionOrder := [(noopAction, 0)], warmStart := false }
        [{ suggested_command := "c", agent_owner := "A", confidence := 1/2 }]).2 = none ∧
    (buildContext { nActions := 1, actionOrder := [(noopAction, 0)], warmStart := false }
        [{ suggested_command := "c", agent_owner := "A", confidence := 1/2 }]).1.actionOrder
      = [(noopAction, 0), ("A", 1)] :=
  ⟨rfl, rfl, rfl⟩

/-- C3 amended: context construction sizes the vector by the cached policy
dimensionality `_n_actions`, not by the registry's slot count; when the call
completes (returns a vector), that vector has length `_n_actions` and every
candidate's confidence write was within bounds, i.e. every candidate's owner
holds a slot strictly below `_n_actions` in the post-call registry. A
first-time registration whose new slot is not below `_n_actions` makes the
write out of range and the call raises instead of completing. -/
theorem C3_amended_vector_bounds (st : BanditState) (cs : List Action) (v : List ℚ)
    (h : (buildContext st cs).2 = some v) :
    v.length = st.nActions ∧
    ∀ a ∈ cs, ∃ p,
      lookupSlot (buildContext st cs).1.actionOrder a.agent_owner = some p ∧
        p < st.nActions := by
  unfold buildContext at h ⊢
  dsimp only at h ⊢
  cases hn : lookupSlot st.actionOrder noopAction with
  | none => rw [hn] at h; simp at h
  | some noopPos =>
    rw [hn] at h
    dsimp only at h ⊢
    by_cases hlt : noopPos < (List.replicate st.nActions (0 : ℚ)).length
    · rw [if_pos hlt] at h ⊢
      dsimp only at h ⊢
      have hpair : buildCtxLoop cs st.actionOrder
            ((List.replicate st.nActions (0 : ℚ)).set noopPos noopConfidence)
          = ((buildCtxLoop cs st.actionOrder
              ((List.replicate st.nActions (0 : ℚ)).set noopPos noopConfidence)).1,
             (buildCtxLoop cs st.actionOrder
              ((List.replicate st.nActions (0 : ℚ)).set noopPos noopConfidence)).2) := rfl
      rw [h] at hpair
      obtain ⟨hlen, _, hall⟩ := buildCtxLoop_some_spec cs st.actionOrder _ _ _ hpair
      have hveclen : ((List.replicate st.nActions (0 : ℚ)).set noopPos noopConfidence).length
          = st.nActions := by
        rw [List.length_set, List.length_replicate]
      refine ⟨hlen.trans hveclen, ?_⟩
      intro a ha
      obtain ⟨p, hp, hplt⟩ := hall a ha
      exact ⟨p, hp, hveclen ▸ hplt⟩
    · rw [if_neg hlt] at h
      simp at h

/-- Witness for C3's amended statement: dimensionality 2, one fresh candidate;
the build completes with a 2-length vector and the candidate's slot 1 is in
bounds. -/
theorem C3_amended_vector_bounds_witness :
    ([1/10, 1/2] : List ℚ).length = 2 ∧
    ∀ a ∈ ([{ suggested_command := "c", agent_owner := "A", confidence := 1/2 }] : List Action),
      ∃ p, lookupSlot [(noopAction, 0), ("A", 1)] a.agent_owner = some p ∧ p < 2 :=
  C3_amended_vector_bounds
    { nActions := 2, actionOrder := [(noopAction, 0)], warmStart := false }
    [{ suggested_command := "c", agent_owner := "A", confidence := 1/2 }]
    [1/10, 1/2] rfl

/-! ### Claim C6 -/

/-- C6: `record_transition` never propagates an exception: whatever the policy's
observe capability does, the call returns normally, and when the first observe
raises, the error is logged. -/
theorem C6_record_transition_never_raises (observe : String → Int → Except String Unit)
    (prev : TerminalReplayMemoryComplete) (cur : TerminalReplayMemory) :
    ∃ logs, record_transition observe prev cur = .ok logs ∧
      ∀ e, observe prev.pre_replay.command.command_id
            (computePreTransitionReward prev.pre_replay prev.post_replay) = .error e →
          logs = [observeWarn e] := by
  cases h1 : observe prev.pre_replay.command.command_id
      (computePreTransitionReward prev.pre_replay prev.post_replay) with
  | error e =>
    refine ⟨[observeWarn e], ?_, ?_⟩
    · unfold record_transition
      rw [h1]
    · intro e' he'
      injection he' with h
      rw [h]
  | ok u =>
    cases h2 : observe prev.post_replay.command.command_id
        (computePostTransitionReward prev.post_replay cur) with
    | error e =>
      refine ⟨[observeWarn e], ?_, ?_⟩
      · unfold record_transition
        rw [h1, h2]
      · intro e' he'
        exact Except.noConfusion he'
    | ok v =>
      refine ⟨[], ?_, ?_⟩
      · unfold record_transition
        rw [h1, h2]
      · intro e' he'
        exact Except.noConfusion he'

/-- Witness for C6: an observe capability that always raises; the call still
returns normally and the error is logged. -/
theorem C6_record_transition_never_raises_witness :
    ∃ logs, record_transition (fun _ _ => .error "boom")
        { pre_replay := { command := { command_id := "p", command := "c1" } },
          post_replay := { command := { command_id := "q", command := "c2" } } }
        { command := { command_id := "r", command := "c3" } } = .ok logs ∧
      ∀ e, (fun _ _ => (Except.error "boom" : Except String Unit)) "p" (0 : Int) = .error e →
          logs = [observeWarn e] :=
  C6_record_transition_never_raises (fun _ _ => .error "boom")
    { pre_replay := { command := { command_id := "p", command := "c1" } },
      post_replay := { command := { command_id := "q", command := "c2" } } }
    { command := { command_id := "r", command := "c3" } }

/-! ### Claim C8 -/

theorem slotSeq_length (n : Nat) : ∀ s, (slotSeq s n).length = n := by
  induction n with
  | zero => intro s; rfl
  | succ n ih =>
    intro s
    show (s :: slotSeq (s + 1) n).length = n + 1
    rw [List.length_cons, ih]

theorem slotSeq_shift (n : Nat) : ∀ s, slotSeq (s + 1) n = (slotSeq s n).map Nat.succ := by
  induction n with
  | zero => intro s; rfl
  | succ n ih =>
    intro s
    show (s + 1) :: slotSeq (s + 2) n = ((s :: slotSeq (s + 1) n).map Nat.succ)
    rw [List.map_cons, ih (s + 1)]

theorem slotSeq_zero_eq_range (n : Nat) : slotSeq 0 n = List.range n := by
  induction n with
  | zero => rfl
  | succ n ih =>
    show 0 :: slotSeq 1 n = List.range (n + 1)
    rw [List.range_succ_eq_map, show (1 : Nat) = 0 + 1 from rfl, slotSeq_shift, ih]

theorem mem_slotSeq_le (n : Nat) : ∀ s x, x ∈ slotSeq s n → s ≤ x := by
  induction n with
  | zero => intro s x hx; exact absurd hx (List.not_mem_nil x)
  | succ n ih =>
    intro s x hx
    rcases List.mem_cons.mp hx with hx | hx
    · exact le_of_eq hx.symm
    · exact le_trans (Nat.le_succ s) (ih (s + 1) x hx)

theorem slotSeq_pairwise_lt (n : Nat) : ∀ s, List.Pairwise (· < ·) (slotSeq s n) := by
  induction n with
  | zero => intro s; exact List.Pairwise.nil
  | succ n ih =>
    intro s
    refine List.pairwise_cons.mpr ⟨?_, ih (s + 1)⟩
    intro x hx
    exact lt_of_lt_of_le (Nat.lt_succ_self s) (mem_slotSeq_le n (s + 1) x hx)

theorem foldl_max_range (n : Nat) : (List.range n).foldl Nat.max 0 = n - 1 := by
  induction n with
  | zero => rfl
  | succ n ih =>
    rw [List.range_succ, List.foldl_append, ih]
    show Nat.max (n - 1) n = n + 1 - 1
    rw [Nat.succ_sub_one]
    exact Nat.max_eq_right (Nat.sub_le n 1)

theorem maxSlot_of_range {reg : Reg} {n : Nat} (h : reg.map Prod.snd = List.range n) :
    maxSlot reg = n - 1 := by
  rw [maxSlot, h, foldl_max_range]

theorem zip_map_snd (ids : List String) :
    ∀ s : List Nat, ids.length = s.length → (ids.zip s).map Prod.snd = s := by
  induction ids with
  | nil =>
    intro s hs
    cases s with
    | nil => rfl
    | cons x xs => exact absurd hs (by simp)
  | cons a rest ih =>
    intro s hs
    cases s with
    | nil => exact absurd hs (by simp)
    | cons x xs =>
      show x :: (rest.zip xs).map Prod.snd = x :: xs
      rw [ih xs (by simpa using hs)]

/-- Running `ensure` over a list of fresh, pairwise-distinct identities on a
registry whose slots are exactly `0..n-1` (in insertion order) assigns the slots
`n, n+1, ...` in call order and appends the matching entries. -/
theorem ensureSeq_fresh_spec (ids : List String) :
    ∀ (reg : Reg) (n : Nat), 0 < n → reg.map Prod.snd = List.range n → ids.Nodup →
      (∀ a ∈ ids, hasAgent reg a = false) →
      ensureSeq reg ids
        = ((slotSeq n ids.length).map some, reg ++ ids.zip (slotSeq n ids.length)) := by
  induction ids with
  | nil =>
    intro reg n hn hmap hnd hfr
    show (([] : List (Option Nat)), reg) = ([], reg ++ [])
    rw [List.append_nil]
  | cons a rest ih =>
    intro reg n hn hmap hnd hfr
    have hfa : hasAgent reg a = false := hfr a (List.mem_cons_self a rest)
    have hmax : maxSlot reg = n - 1 := maxSlot_of_range hmap
    have hslot : maxSlot reg + 1 = n := by
      rw [hmax]
      exact Nat.succ_pred_eq_of_pos hn
    have hadd : addToActionOrder reg a = reg ++ [(a, n)] := by
      rw [addToActionOrder, if_neg (by rw [hfa]; exact Bool.false_ne_true), hslot]
    have hlook : lookupSlot (reg ++ [(a, n)]) a = some n := lookupSlot_append_fresh n hfa
    have hens : ensure reg a = (some n, reg ++ [(a, n)]) := by
      unfold ensure
      dsimp only
      rw [hadd, hlook]
    have hmap' : (reg ++ [(a, n)]).map Prod.snd = List.range (n + 1) := by
      rw [List.map_append, hmap, List.range_succ]
      rfl
    have hfr' : ∀ b ∈ rest, hasAgent (reg ++ [(a, n)]) b = false := by
      intro b hb
      have h1 : hasAgent reg b = false := hfr b (List.mem_cons_of_mem a hb)
      have h2 : (a == b) = false := by
        refine beq_eq_false_iff_ne.mpr ?_
        intro he
        exact (List.nodup_cons.mp hnd).1 (he ▸ hb)
      rw [hasAgent, List.any_append]
      rw [hasAgent] at h1
      rw [h1]
      simp [h2]
    have hrec := ih (reg ++ [(a, n)]) (n + 1) (Nat.succ_pos n) hmap'
      (List.nodup_cons.mp hnd).2 hfr'
    unfold ensureSeq
    dsimp only
    rw [hens]
    dsimp only
    rw [hrec]
    show (some n :: (slotSeq (n + 1) rest.length).map some,
          (reg ++ [(a, n)]) ++ rest.zip (slotSeq (n + 1) rest.length))
        = ((slotSeq n (rest.length + 1)).map some,
           reg ++ (a :: rest).zip (slotSeq n (rest.length + 1)))
    rw [show slotSeq n (rest.length + 1) = n :: slotSeq (n + 1) rest.length from rfl]
    rw [show (a :: rest).zip (n :: slotSeq (n + 1) rest.length)
        = (a, n) :: rest.zip (slotSeq (n + 1) rest.length) from rfl]
    rw [List.map_cons, List.append_assoc]
    rfl

/-- C8: starting from the initial registry (no-op at slot 0), running `ensure`
over any sequence of distinct identities other than the no-op assigns the slots
1, 2, ..., k in call order — pairwise distinct and strictly increasing, each
equal to the previous maximum plus one; the final registry keeps the no-op at 0
and every earlier assignment unchanged, and its slots are exactly the contiguous
range 0..k. -/
theorem C8_fresh_slots_strictly_increasing (ids : List String) (hnd : ids.Nodup)
    (hfr : ∀ a ∈ ids, a ≠ noopAction) :
    ensureSeq [(noopAction, 0)] ids
      = ((slotSeq 1 ids.length).map some,
         (noopAction, 0) :: ids.zip (slotSeq 1 ids.length)) ∧
    List.Pairwise (· < ·) (slotSeq 1 ids.length) ∧
    ((noopAction, 0) :: ids.zip (slotSeq 1 ids.length)).map Prod.snd
      = List.range (ids.length + 1) := by
  have hfr' : ∀ a ∈ ids, hasAgent [(noopAction, 0)] a = false := by
    intro a ha
    have hne := hfr a ha
    have : (noopAction == a) = false := beq_eq_false_iff_ne.mpr (fun he => hne he.symm)
    simp [hasAgent, this]
  have hmain := ensureSeq_fresh_spec ids [(noopAction, 0)] 1 Nat.one_pos rfl hnd hfr'
  refine ⟨by simpa using hmain, slotSeq_pairwise_lt ids.length 1, ?_⟩
  rw [List.map_cons]
  rw [zip_map_snd ids (slotSeq 1 ids.length) (by rw [slotSeq_length])]
  rw [List.range_succ_eq_map, show (1 : Nat) = 0 + 1 from rfl, slotSeq_shift,
    slotSeq_zero_eq_range]

/-- Witness for C8: the identities A then B receive slots 1 then 2; the final
registry is no-op at 0, A at 1, B at 2, with slots exactly 0, 1, 2. -/
theorem C8_fresh_slots_strictly_increasing_witness :
    ensureSeq [(noopAction, 0)] ["A", "B"]
      = ([some 1, some 2], [(noopAction, 0), ("A", 1), ("B", 2)]) ∧
    List.Pairwise (· < ·) [1, 2] ∧
    ([((noopAction : String), (0 : Nat)), ("A", 1), ("B", 2)]).map Prod.snd = List.range 3 :=
  C8_fresh_slots_strictly_increasing ["A", "B"] (by decide) (by decide)

/-! ### Claim C10 -/

theorem splitOnQuote_ne_nil (s : List Char) : splitOnQuote s ≠ [] := by
  induction s with
  | nil => simp [splitOnQuote]
  | cons c rest ih =>
    unfold splitOnQuote
    by_cases hc : c = '"'
    · simp [hc]
    · rw [if_neg hc]
      cases hs : splitOnQuote rest with
      | nil => simp
      | cons g gs => simp

theorem splitOnQuote_headD (s : List Char) :
    (splitOnQuote s).headD [] = s.takeWhile (fun c => c != '"') := by
  induction s with
  | nil => rfl
  | cons c rest ih =>
    by_cases hc : c = '"'
    · subst hc
      show (splitOnQuote ('"' :: rest)).headD [] = _
      unfold splitOnQuote
      rw [if_pos rfl]
      simp [List.takeWhile]
    · have hbne : (c != '"') = true := by
        simpa using hc
      unfold splitOnQuote
      rw [if_neg hc]
      cases hs : splitOnQuote rest with
      | nil => exact absurd hs (splitOnQuote_ne_nil rest)
      | cons g gs =>
        rw [hs] at ih
        show c :: g = (c :: rest).takeWhile (fun c => c != '"')
        simp only [List.takeWhile, hbne]
        rw [← ih]
        rfl

theorem takeWhileQuote_of_no_quote {t : List Char} (h : ∀ c ∈ t, c ≠ '"') :
    t.takeWhile (fun c => c != '"') = t := by
  induction t with
  | nil => rfl
  | cons c rest ih =>
    have hc : (c != '"') = true := by
      simpa using h c (List.mem_cons_self c rest)
    simp only [List.takeWhile, hc]
    rw [ih (fun x hx => h x (List.mem_cons_of_mem c hx))]

theorem extract_of_not_quote {s : List Char} (h : startsWithQuote s = false) :
    extract_quoted_agent_name s = s := by
  unfold extract_quoted_agent_name
  rw [h]
  rfl

theorem extract_of_quote (t : List Char) :
    extract_quoted_agent_name ('"' :: t) = t.takeWhile (fun c => c != '"') := by
  unfold extract_quoted_agent_name
  rw [if_pos (show startsWithQuote ('"' :: t) = true from rfl)]
  have hsp : splitOnQuote ('"' :: t) = [] :: splitOnQuote t := rfl
  rw [hsp]
  cases hs : splitOnQuote t with
  | nil => exact absurd hs (splitOnQuote_ne_nil t)
  | cons g gs =>
    have hh := splitOnQuote_headD t
    rw [hs] at hh
    dsimp [oddIdxElems]
    exact hh

/-- C10: for every input not starting with a double quote,
`extract_quoted_agent_name` returns the input unchanged; for every input that
starts with a double quote, it returns the prefix of the remainder up to (and
excluding) the next double quote — the substring strictly between the first and
second quote — which is the whole remainder when no closing quote exists. -/
theorem C10_extract_quoted_agent_name_spec (s : List Char) :
    (startsWithQuote s = false → extract_quoted_agent_name s = s) ∧
    (∀ t, s = '"' :: t →
      extract_quoted_agent_name s = t.takeWhile (fun c => c != '"') ∧
      ((∀ c ∈ t, c ≠ '"') → extract_quoted_agent_name s = t)) := by
  refine ⟨fun h => extract_of_not_quote h, ?_⟩
  intro t ht
  subst ht
  refine ⟨extract_of_quote t, ?_⟩
  intro hall
  rw [extract_of_quote t, takeWhileQuote_of_no_quote hall]

/-- Witness for C10: the input consisting of a quote then ab (no closing quote)
yields everything after the quote; in particular a single double quote yields
the empty string. -/
theorem C10_extract_quoted_agent_name_spec_witness :
    extract_quoted_agent_name ['"', 'a', 'b'] = ['a', 'b'] ∧
    extract_quoted_agent_name ['"'] = [] := by
  constructor
  · exact ((C10_extract_quoted_agent_name_spec ['"', 'a', 'b']).2 ['a', 'b'] rfl).2 (by decide)
  · exact ((C10_extract_quoted_agent_name_spec ['"']).2 [] rfl).2 (by decide)

end Clai
